import Mathlib

/-!
Verification development for the `dynamic_mcp` repository.

We shallowly embed the core of `dynamic_mcp/registry.py` (tool registry,
capability matcher, call-time validation/dispatch) and `dynamic_mcp/auth.py`
(API-key credential store and the external-trust principal resolver), and
prove the behavioural properties claimed about them.

Conventions of the embedding:
* Python strings are Lean `String`s; where the Python code uses library
  string routines (`str.strip`, `str.split`, `fnmatch.fnmatch`,
  pydantic's lax `int` coercion) we embed those routines as executable
  Lean functions over `List Char`.
* Timestamps (`datetime`) are natural numbers; `<` mirrors
  `datetime.__lt__` on well-formed stored records.
* The keyed hash `_hmac_digest(token, secret)` is abstracted by an
  arbitrary function `D : String → String` (the secret is fixed for a
  given store, so the digest is a one-argument function of the token).
* Randomness (`secrets.token_urlsafe`) is passed in as an explicit
  parameter.
* Raised `HTTPException`s are modelled with `Except` error values.
-/

namespace DynMCP

/-! ## Glob matching: embedding of Python `fnmatch.fnmatch` (POSIX).

On POSIX `os.path.normcase` is the identity, so `fnmatch.fnmatch` is the
case-sensitive translation of the pattern (`*`, `?`, `[...]` classes with
optional leading `!` negation and `a-b` ranges, a `]` first in a class is a
literal, an unterminated `[` is a literal) followed by a full match of the
name against it. -/

/-- One token of a translated glob pattern. -/
inductive GlobTok where
  | star : GlobTok
  | anyc : GlobTok
  | lit : Char → GlobTok
  | cls : Bool → List Char → GlobTok
deriving DecidableEq

/-- Split a pattern remainder at the first `]`, returning the class body and
the rest; `none` when the class is unterminated. -/
def splitOnRBracket : List Char → Option (List Char × List Char)
  | [] => none
  | c :: r =>
    if c = ']' then some ([], r)
    else (splitOnRBracket r).map fun p => (c :: p.1, p.2)

/-- Scan a bracket-expression body: a `]` placed first belongs to the class
as a literal member; then everything up to the next `]` is the class. -/
def parseClassBody : List Char → Option (List Char × List Char)
  | [] => none
  | c :: r =>
    if c = ']' then (splitOnRBracket r).map fun p => (']' :: p.1, p.2)
    else splitOnRBracket (c :: r)

/-- Parse a bracket expression (the characters after `[`): strip an optional
leading `!` (negation), then scan the body. Returns
`(negated, class body, rest)`; `none` when unterminated. -/
def parseClass : List Char → Option (Bool × List Char × List Char)
  | [] => none
  | c :: r =>
    if c = '!' then (parseClassBody r).map fun p => (true, p.1, p.2)
    else (parseClassBody (c :: r)).map fun p => (false, p.1, p.2)

theorem splitOnRBracket_length :
    ∀ l a b, splitOnRBracket l = some (a, b) → b.length < l.length := by
  intro l
  induction l with
  | nil => intro a b h; simp [splitOnRBracket] at h
  | cons c r ih =>
    intro a b h
    by_cases hc : c = ']'
    · rw [splitOnRBracket, if_pos hc] at h
      have hb : r = b := congrArg (fun t => t.2) (Option.some.inj h)
      subst hb
      simp
    · rw [splitOnRBracket, if_neg hc] at h
      rcases hsr : splitOnRBracket r with _ | ⟨p, q⟩
      · rw [hsr] at h; simp at h
      · rw [hsr, Option.map_some'] at h
        have hb : q = b := congrArg (fun t => t.2) (Option.some.inj h)
        subst hb
        have := ih p q hsr
        simp only [List.length_cons]
        omega

theorem parseClassBody_length :
    ∀ l a b, parseClassBody l = some (a, b) → b.length < l.length := by
  intro l a b h
  cases l with
  | nil => simp [parseClassBody] at h
  | cons c r =>
    by_cases hc : c = ']'
    · rw [parseClassBody, if_pos hc] at h
      rcases hsr : splitOnRBracket r with _ | ⟨p, q⟩
      · rw [hsr] at h; simp at h
      · rw [hsr, Option.map_some'] at h
        have hb : q = b := congrArg (fun t => t.2) (Option.some.inj h)
        subst hb
        have := splitOnRBracket_length r p q hsr
        simp only [List.length_cons]
        omega
    · rw [parseClassBody, if_neg hc] at h
      exact splitOnRBracket_length _ a b h

theorem parseClass_length :
    ∀ ps neg cs rest, parseClass ps = some (neg, cs, rest) → rest.length < ps.length := by
  intro ps neg cs rest h
  cases ps with
  | nil => simp [parseClass] at h
  | cons c r =>
    by_cases hc : c = '!'
    · rw [parseClass, if_pos hc] at h
      rcases hb : parseClassBody r with _ | ⟨p, q⟩
      · rw [hb] at h; simp at h
      · rw [hb, Option.map_some'] at h
        have hq : q = rest := congrArg (fun t => t.2.2) (Option.some.inj h)
        subst hq
        have := parseClassBody_length r p q hb
        simp only [List.length_cons]
        omega
    · rw [parseClass, if_neg hc] at h
      rcases hb : parseClassBody (c :: r) with _ | ⟨p, q⟩
      · rw [hb] at h; simp at h
      · rw [hb, Option.map_some'] at h
        have hq : q = rest := congrArg (fun t => t.2.2) (Option.some.inj h)
        subst hq
        exact parseClassBody_length _ p q hb

/-- Translate a glob pattern into tokens, with fuel. Fuel equal to the
pattern length is sufficient because every step consumes at least one
character (`parseClass_length`), so the `0`-fuel branch is unreachable
from `translate`. -/
def translateF : Nat → List Char → List GlobTok
  | 0, _ => []
  | _ + 1, [] => []
  | fuel + 1, c :: ps =>
    if c = '*' then .star :: translateF fuel ps
    else if c = '?' then .anyc :: translateF fuel ps
    else if c = '[' then
      match parseClass ps with
      | some (neg, cs, rest) => .cls neg cs :: translateF fuel rest
      | none => .lit '[' :: translateF fuel ps
    else .lit c :: translateF fuel ps

/-- Translate a glob pattern into tokens (`fnmatch.translate`). -/
def translate (ps : List Char) : List GlobTok := translateF ps.length ps

/-- Membership of a character in a bracket-class body: `a-b` ranges are
inclusive, a trailing `-` is a literal. -/
def classMatchAux : List Char → Char → Bool
  | a :: '-' :: b :: rest, c => (a ≤ c && c ≤ b) || classMatchAux rest c
  | a :: rest, c => a == c || classMatchAux rest c
  | [], _ => false

/-- Membership of a character in a bracket-class body; a leading `-` is a
literal member (fnmatch treats a hyphen first in the class as literal). -/
def classMatch (cls : List Char) (c : Char) : Bool :=
  match cls with
  | '-' :: rest => c == '-' || classMatchAux rest c
  | _ => classMatchAux cls c

/-- Token-list glob matching with fuel; `star` tries to match zero characters
or to consume one and stay. Fuel `ts.length + s.length + 1` is sufficient
because every recursive call strictly decreases `ts.length + s.length`. -/
def tokMatchF : Nat → List GlobTok → List Char → Bool
  | 0, _, _ => false
  | _ + 1, [], s => s.isEmpty
  | fuel + 1, .star :: ts, s =>
    tokMatchF fuel ts s ||
      (match s with
       | [] => false
       | _ :: s2 => tokMatchF fuel (.star :: ts) s2)
  | fuel + 1, .anyc :: ts, s =>
    (match s with
     | [] => false
     | _ :: s2 => tokMatchF fuel ts s2)
  | fuel + 1, .lit c :: ts, s =>
    (match s with
     | [] => false
     | d :: s2 => c == d && tokMatchF fuel ts s2)
  | fuel + 1, .cls neg cs :: ts, s =>
    (match s with
     | [] => false
     | d :: s2 => (classMatch cs d != neg) && tokMatchF fuel ts s2)

/-- Full match of a character list against a token list. -/
def tokMatch (ts : List GlobTok) (s : List Char) : Bool :=
  tokMatchF (ts.length + s.length + 1) ts s

/-- Embedding of Python `fnmatch.fnmatch(name, pat)` on POSIX. -/
def fnmatch (name pat : String) : Bool :=
  tokMatch (translate pat.data) name.data

/-! ## Python string helpers used by the source -/

/-- Characters stripped by Python `str.strip()` with no argument. -/
def isPySpace (c : Char) : Bool :=
  c == ' ' || c == '\t' || c == '\n' || c == '\r' || c == '\x0b' || c == '\x0c'

/-- Strip leading and trailing whitespace from a character list. -/
def stripChars (l : List Char) : List Char :=
  ((l.dropWhile isPySpace).reverse.dropWhile isPySpace).reverse

/-- Embedding of Python `str.strip()`. -/
def pyStrip (s : String) : String := ⟨stripChars s.data⟩

/-- Python falsy-string chaining `a or b`: an empty string is falsy. -/
def strOr (a b : String) : String := if a = "" then b else a

/-- Split a character list on commas, Python `str.split(",")`:
splitting the empty string yields one empty piece. -/
def splitComma : List Char → List Char → List (List Char)
  | [], acc => [acc.reverse]
  | c :: r, acc =>
    if c = ',' then acc.reverse :: splitComma r []
    else splitComma r (c :: acc)

/-- Decimal digits of a candidate integer literal, accumulated left to right;
`none` when a non-digit appears or the digit list is empty. -/
def parseNatChars : List Char → Option Nat → Option Nat
  | [], acc => acc
  | c :: r, acc =>
    if c.isDigit then
      match acc with
      | some n => parseNatChars r (some (n * 10 + (c.toNat - 48)))
      | none => parseNatChars r (some (c.toNat - 48))
    else none

/-- Embedding of the decimal-string-to-integer coercion pydantic applies to
`int` fields in (default) lax mode: an optional sign followed by digits. -/
def pyIntParse (s : String) : Option Int :=
  match s.data with
  | '-' :: rest => (parseNatChars rest none).map fun n => -(n : Int)
  | '+' :: rest => (parseNatChars rest none).map fun n => (n : Int)
  | l => (parseNatChars l none).map fun n => (n : Int)

/-! ## Data model (`models.py`, `registry.py`) -/

/-- JSON values (`json.loads` results); enough structure for the
constraints headers and the opaque constraint mappings. -/
inductive JValue where
  | null : JValue
  | bool : Bool → JValue
  | num : Int → JValue
  | str : String → JValue
  | arr : List JValue → JValue
  | obj : List (String × JValue) → JValue

/-- `models.Principal`: the authenticated caller context. -/
structure Principal where
  principal_id : String
  capabilities : List String
  constraints : List (String × JValue)
  disabled : Bool

/-- Declared parameter/field types we track from Python annotations:
unannotated parameters get `Any`. -/
inductive PyType where
  | anyT : PyType
  | intT : PyType
  | strT : PyType
deriving DecidableEq

/-- Runtime values passed as tool arguments or returned by handlers. -/
inductive Value where
  | vInt : Int → Value
  | vStr : String → Value
  | vPrincipal : Principal → Value

/-- One parameter of a Python callable's signature as seen by
`inspect.signature` together with `get_type_hints`: name, annotation
(or `Any`), and default (`none` models `inspect._empty`, i.e. required). -/
structure Param where
  name : String
  ann : PyType
  default : Option Value

/-- An introspectable Python callable: its signature, `__doc__`,
`__name__`, and the function body itself (kwargs to return value). -/
structure Handler where
  params : List Param
  doc : Option String
  fname : String
  run : List (String × Value) → Value

/-- One field of a synthesized pydantic input model: name, type,
default (`none` = required, the `...` sentinel). -/
structure FieldDef where
  name : String
  ty : PyType
  default : Option Value

/-- `registry.ToolDef`. The output model is always the fixed single-field
envelope `value : Any` and is inlined in `callTool`. -/
structure ToolDef where
  name : String
  description : String
  fn : Handler
  input_model : List FieldDef
  required_caps : List String
  tags : List String

/-! ## Tool registry (`registry.py`) -/

/-- `ToolRegistry.register`: resolve name and description with Python
falsy-`or` chaining, build the input model from the signature skipping
the parameter named `user`, default the required capabilities to
`["tool:<name>"]` when the override is `None` or empty. -/
def register (fn : Handler) (name : Option String) (description : Option String)
    (required_caps : Option (List String)) (tags : Option (List String)) : ToolDef :=
  let tool_name := strOr (name.getD "") fn.fname
  let desc := strOr (strOr (description.getD "") (pyStrip (fn.doc.getD "")))
    ("Tool " ++ tool_name)
  let fields := (fn.params.filter fun p => p.name ≠ "user").map
    fun p => FieldDef.mk p.name p.ann p.default
  let base := required_caps.getD []
  let req := if base.isEmpty then ["tool:" ++ tool_name] else base
  ToolDef.mk tool_name desc fn fields req (tags.getD [])

/-- `ToolRegistry._principal_has`: a capability equal to `*` or `admin:*`
grants unconditionally; otherwise fnmatch is tried in both directions
(`fnmatch(required, cap) or fnmatch(cap, required)`), short-circuiting on
the first capability that matches. -/
def principalHas (p : Principal) (required : String) : Bool :=
  p.capabilities.any fun cap =>
    cap == "*" || cap == "admin:*" || fnmatch required cap || fnmatch cap required

/-- The 403 error raised by `ToolRegistry.enforce_tool`. -/
inductive Forbidden where
  | notAuthorized : Forbidden
deriving DecidableEq

/-- `ToolRegistry.enforce_tool`: grant when any required capability is
satisfied, else when any tag expanded to `tag:<tag>` is satisfied,
else 403. -/
def enforce_tool (p : Principal) (t : ToolDef) : Except Forbidden Unit :=
  if t.required_caps.any fun req => principalHas p req then .ok ()
  else if t.tags.any fun tag => principalHas p ("tag:" ++ tag) then .ok ()
  else .error .notAuthorized

/-- Dictionary lookup on keyword-argument lists (Python dict access). -/
def lookupArg (args : List (String × Value)) (n : String) : Option Value :=
  match args.find? fun a => a.1 == n with
  | some a => some a.2
  | none => none

/-- pydantic (default lax mode) validation/coercion of one supplied value
against a declared type: `Any` accepts everything, `int` accepts integers
and decimal strings, `str` accepts strings (pydantic does not coerce
numbers to `str`). -/
def coerce : PyType → Value → Option Value
  | .anyT, v => some v
  | .intT, .vInt n => some (.vInt n)
  | .intT, .vStr s => (pyIntParse s).map Value.vInt
  | .strT, .vStr s => some (.vStr s)
  | _, _ => none

/-- The kinds of field-level errors pydantic reports. -/
inductive FieldErrKind where
  | missing : FieldErrKind
  | invalidType : FieldErrKind
deriving DecidableEq

/-- Validate one declared field: a supplied value must coerce to the
declared type; an absent value falls back to the default, and is a
`missing` error when the field is required. Extra supplied keys are not
consulted (pydantic's default `extra='ignore'`). -/
def validateField (args : List (String × Value)) (f : FieldDef) :
    Except (String × FieldErrKind) (String × Value) :=
  match lookupArg args f.name with
  | some v =>
    match coerce f.ty v with
    | some v2 => .ok (f.name, v2)
    | none => .error (f.name, .invalidType)
  | none =>
    match f.default with
    | some d => .ok (f.name, d)
    | none => .error (f.name, .missing)

/-- pydantic model construction `input_model(**args)`: all field errors are
collected; on success `model_dump()` yields exactly the declared fields. -/
def validateModel (fields : List FieldDef) (args : List (String × Value)) :
    Except (List (String × FieldErrKind)) (List (String × Value)) :=
  let errs := fields.filterMap fun f =>
    match validateField args f with
    | .error e => some e
    | .ok _ => none
  if errs.isEmpty then
    .ok (fields.filterMap fun f =>
      match validateField args f with
      | .ok kv => some kv
      | .error _ => none)
  else .error errs

/-- Python dict assignment `kwargs[k] = v`: replace an existing binding,
else append a new one. -/
def setKey (kw : List (String × Value)) (k : String) (v : Value) :
    List (String × Value) :=
  if kw.any fun a => a.1 == k then
    kw.map fun a => if a.1 == k then (k, v) else a
  else kw ++ [(k, v)]

/-- The principal-injection step of `ToolRegistry.call`: if the handler's
signature declares `principal`, inject there; else if it declares the
legacy name `user`, inject there. -/
def injectPrincipal (params : List Param) (kw : List (String × Value))
    (p : Principal) : List (String × Value) :=
  if params.any fun q => q.name == "principal" then setKey kw "principal" (.vPrincipal p)
  else if params.any fun q => q.name == "user" then setKey kw "user" (.vPrincipal p)
  else kw

/-- The 422 error raised by `ToolRegistry.call` on validation failure,
carrying `e.errors()`. -/
inductive CallErr where
  | validation : List (String × FieldErrKind) → CallErr

/-- `ToolRegistry.call`: validate the arguments against the input model
(422 on failure, handler untouched), inject the principal, invoke the
handler, and wrap the result in the `value` envelope. -/
def callTool (t : ToolDef) (args : List (String × Value)) (principal : Principal) :
    Except CallErr (List (String × Value)) :=
  match validateModel t.input_model args with
  | .error errs => .error (.validation errs)
  | .ok parsed =>
    let kwargs := injectPrincipal t.fn.params parsed principal
    .ok [("value", t.fn.run kwargs)]

/-! ## Credential store (`auth.py`, class `ApiKeyStore`)

The JSON file's `keys` array is a `List StoredKey` (well-formed records:
timestamps are numbers, so the `"API key invalid expiry"` branch for
unparsable stored strings cannot arise). The keyed hash of a token under
the fixed server secret is an abstract `D : String → String`. -/

/-- `auth.StoredKey`. -/
structure StoredKey where
  key_id : String
  token_hmac : String
  principal_id : String
  capabilities : List String
  constraints : List (String × JValue)
  created_at : Nat
  expires_at : Option Nat
  revoked_at : Option Nat
  last_used_at : Option Nat

/-- The 401 errors raised by `auth.py` (all are HTTP `Unauthorized`). -/
inductive AuthError where
  | invalidKey : AuthError
  | revokedKey : AuthError
  | expiredKey : AuthError
  | missingPrincipalHeader : AuthError
  | invalidConstraintsHeader : AuthError
deriving DecidableEq

/-- `ApiKeyStore.mint_key`: the returned opaque token is the prefix (default
`"mcp_live_"`) followed by the random URL-safe component; the appended
record stores only the keyed hash of the full token, never the token. -/
def mint_key (D : String → String) (pfx : String) (randToken randId : String)
    (now : Nat) (principal_id : String) (capabilities : List String)
    (constraints : Option (List (String × JValue))) (expires_at : Option Nat)
    (keys : List StoredKey) : String × List StoredKey :=
  let token := pfx ++ randToken
  let k := StoredKey.mk ("k_" ++ randId) (D token) principal_id capabilities
    (constraints.getD []) now expires_at none none
  (token, keys ++ [k])

/-- A stored record with `revoked_at` set (the mutation done by
`ApiKeyStore.revoke`). -/
def setRevoked (k : StoredKey) (now : Nat) : StoredKey :=
  StoredKey.mk k.key_id k.token_hmac k.principal_id k.capabilities
    k.constraints k.created_at k.expires_at (some now) k.last_used_at

/-- A stored record with `last_used_at` stamped (the best-effort mutation
done by `ApiKeyStore.resolve`). -/
def stampUsed (k : StoredKey) (now : Nat) : StoredKey :=
  StoredKey.mk k.key_id k.token_hmac k.principal_id k.capabilities
    k.constraints k.created_at k.expires_at k.revoked_at (some now)

/-- `ApiKeyStore.revoke`: set `revoked_at` on every record whose stored
digest matches and which is not already revoked, and report whether any
record changed (the file is rewritten only when it did, which leaves the
list unchanged anyway). -/
def revoke (D : String → String) (now : Nat) (keys : List StoredKey)
    (token : String) : Bool × List StoredKey :=
  let d := D token
  let changed := keys.any fun k => k.token_hmac == d && k.revoked_at.isNone
  let keys2 := keys.map fun k =>
    if k.token_hmac == d && k.revoked_at.isNone then setRevoked k now else k
  (changed, keys2)

/-- The `Principal` built by `ApiKeyStore.resolve` from a stored record. -/
def principalOfKey (k : StoredKey) : Principal :=
  Principal.mk k.principal_id k.capabilities k.constraints false

/-- The checks `ApiKeyStore.resolve` performs on the matching record:
401 when revoked, 401 when expired (`expires_at` strictly before now),
else the principal plus the store tail with `last_used_at` stamped. -/
def checkKey (k : StoredKey) (now : Nat) (rest : List StoredKey) :
    Except AuthError (Principal × List StoredKey) :=
  if k.revoked_at.isSome then .error .revokedKey
  else
    match k.expires_at with
    | some e =>
      if e < now then .error .expiredKey
      else .ok (principalOfKey k, stampUsed k now :: rest)
    | none => .ok (principalOfKey k, stampUsed k now :: rest)

/-- The scan loop of `ApiKeyStore.resolve`: skip records whose digest does
not match; the first matching record decides the outcome. -/
def resolveScan (d : String) (now : Nat) :
    List StoredKey → Except AuthError (Principal × List StoredKey)
  | [] => .error .invalidKey
  | k :: rest =>
    if k.token_hmac = d then checkKey k now rest
    else
      match resolveScan d now rest with
      | .error e => .error e
      | .ok pr => .ok (pr.1, k :: pr.2)

/-- `ApiKeyStore.resolve`: hash the token, scan the store; the
`last_used_at` write-back is best effort — `writeOk` models whether the
surrounding `self._write(db)` persisted, and a failed write never
affects the returned principal. -/
def resolve (D : String → String) (now : Nat) (writeOk : Bool)
    (keys : List StoredKey) (token : String) :
    Except AuthError Principal × List StoredKey :=
  match resolveScan (D token) now keys with
  | .error e => (.error e, keys)
  | .ok pr => (.ok pr.1, if writeOk then pr.2 else keys)

/-! ## Delegated-trust resolver (`auth._principal_external`) -/

/-- Split the capabilities header on commas, strip each piece, and drop the
empty ones. -/
def splitCaps (raw : String) : List String :=
  ((splitComma raw.data []).map fun c => (⟨stripChars c⟩ : String)).filter
    fun s => s ≠ ""

/-- The constraints actually kept from a parsed constraints header: a JSON
object's fields; any other JSON value is replaced by the empty mapping. -/
def constraintsOf : JValue → List (String × JValue)
  | .obj fs => fs
  | _ => []

/-- `auth._principal_external`: 401 when the (stripped) principal header is
missing or empty; 401 when the constraints header is present but not
parseable JSON (`parseJson` models `json.loads`, `none` = raised); a
parsed non-object is silently replaced by `{}`. -/
def principalExternal (parseJson : String → Option JValue)
    (hPrincipal hCaps hCons : Option String) : Except AuthError Principal :=
  let pid := pyStrip (hPrincipal.getD "")
  if pid = "" then .error .missingPrincipalHeader
  else
    let capabilities := splitCaps (pyStrip (hCaps.getD ""))
    let consRaw := pyStrip (hCons.getD "")
    if consRaw = "" then .ok (Principal.mk pid capabilities [] false)
    else
      match parseJson consRaw with
      | none => .error .invalidConstraintsHeader
      | some v => .ok (Principal.mk pid capabilities (constraintsOf v) false)

/-! ## Helper lemmas -/

/-- A principal holding `*` satisfies every requested capability: the
matcher short-circuits on the `cap == "*"` test. -/
theorem principalHas_star (pid : String) (cons : List (String × JValue))
    (dis : Bool) (req : String) :
    principalHas (Principal.mk pid ["*"] cons dis) req = true := rfl

/-- `register` never produces an empty required-capability list: an empty
or missing override is replaced by `["tool:<name>"]`. -/
theorem register_required_caps_ne_nil (fn : Handler) (nm ds : Option String)
    (rc tg : Option (List String)) :
    (register fn nm ds rc tg).required_caps ≠ [] := by
  show (if (rc.getD []).isEmpty then ["tool:" ++ strOr (nm.getD "") fn.fname]
      else rc.getD []) ≠ []
  by_cases h : (rc.getD []).isEmpty
  · rw [if_pos h]; simp
  · rw [if_neg h]
    intro hl
    rw [hl] at h
    simp at h

/-- filterMap respects pointwise-equal functions on the list's members. -/
theorem filterMap_congr_mem {α β : Type} (l : List α) (f g : α → Option β)
    (h : ∀ a ∈ l, f a = g a) : l.filterMap f = l.filterMap g := by
  induction l with
  | nil => rfl
  | cons a r ih =>
    rw [List.filterMap_cons, List.filterMap_cons, h a (List.mem_cons_self a r),
      ih fun x hx => h x (List.mem_cons_of_mem a hx)]

/-- Looking up a key that was appended to a dictionary with no prior
binding for it finds the appended value. -/
theorem lookupArg_append_single (kw : List (String × Value)) (k : String) (v : Value)
    (h : (kw.any fun a => a.1 == k) = false) :
    lookupArg (kw ++ [(k, v)]) k = some v := by
  induction kw with
  | nil => simp [lookupArg, List.find?]
  | cons a r ih =>
    rw [List.any_cons, Bool.or_eq_false_iff] at h
    rw [List.cons_append]
    unfold lookupArg
    rw [List.find?_cons_of_neg _ (by simp [h.1])]
    exact ih h.2

/-- Replacing the (present) binding of a key makes lookup return the new
value. -/
theorem lookupArg_map_replace (kw : List (String × Value)) (k : String) (v : Value)
    (h : (kw.any fun a => a.1 == k) = true) :
    lookupArg (kw.map fun a => if a.1 == k then (k, v) else a) k = some v := by
  induction kw with
  | nil => simp at h
  | cons a r ih =>
    rw [List.map_cons]
    by_cases h1 : (a.1 == k) = true
    · rw [if_pos h1]
      unfold lookupArg
      rw [List.find?_cons_of_pos _ (by simp)]
    · rw [if_neg h1]
      rw [List.any_cons, Bool.or_eq_true] at h
      unfold lookupArg
      rw [List.find?_cons_of_neg _ (by simp_all)]
      exact ih (h.resolve_left h1)

/-- Python dict assignment then lookup of the same key. -/
theorem lookupArg_setKey (kw : List (String × Value)) (k : String) (v : Value) :
    lookupArg (setKey kw k v) k = some v := by
  unfold setKey
  by_cases h : (kw.any fun a => a.1 == k) = true
  · rw [if_pos h]; exact lookupArg_map_replace kw k v h
  · rw [if_neg h]
    exact lookupArg_append_single kw k v (Bool.not_eq_true _ ▸ h)

/-- A supplied key not declared in the model is never consulted by
field validation. -/
theorem validateField_extra (f : FieldDef) (n : String) (v : Value)
    (args : List (String × Value)) (h : f.name ≠ n) :
    validateField ((n, v) :: args) f = validateField args f := by
  unfold validateField lookupArg
  rw [List.find?_cons_of_neg _ (by simp; exact fun he => h he.symm)]

/-- pydantic's default `extra='ignore'`: an argument key not declared in
the model does not change the validation outcome at all. -/
theorem validateModel_extra (fields : List FieldDef) (n : String) (v : Value)
    (args : List (String × Value)) (h : n ∉ fields.map FieldDef.name) :
    validateModel fields ((n, v) :: args) = validateModel fields args := by
  have hname : ∀ f ∈ fields, f.name ≠ n := by
    intro f hf heq
    exact h (heq ▸ List.mem_map_of_mem FieldDef.name hf)
  unfold validateModel
  rw [filterMap_congr_mem fields
      (fun f => match validateField ((n, v) :: args) f with
        | .error e => some e | .ok _ => none)
      (fun f => match validateField args f with
        | .error e => some e | .ok _ => none)
      (fun f hf => by simp only [validateField_extra f n v args (hname f hf)]),
    filterMap_congr_mem fields
      (fun f => match validateField ((n, v) :: args) f with
        | .ok kv => some kv | .error _ => none)
      (fun f => match validateField args f with
        | .ok kv => some kv | .error _ => none)
      (fun f hf => by simp only [validateField_extra f n v args (hname f hf)])]

/-- A required field absent from the arguments makes the whole model
validation fail, and the error list records the missing field. -/
theorem validateModel_missing (fields : List FieldDef) (args : List (String × Value))
    (f : FieldDef) (hf : f ∈ fields) (hd : f.default = none)
    (ha : lookupArg args f.name = none) :
    ∃ errs, errs ≠ [] ∧ (f.name, FieldErrKind.missing) ∈ errs ∧
      validateModel fields args = .error errs := by
  have hvf : validateField args f = .error (f.name, .missing) := by
    unfold validateField
    rw [ha, hd]
  have hmem : (f.name, FieldErrKind.missing) ∈ fields.filterMap fun f2 =>
      match validateField args f2 with
      | .error e => some e | .ok _ => none :=
    List.mem_filterMap.mpr ⟨f, hf, by rw [hvf]⟩
  refine ⟨_, ?_, hmem, ?_⟩
  · intro hnil
    rw [hnil] at hmem
    cases hmem
  · have hne : ∀ L : List (String × FieldErrKind),
        (f.name, FieldErrKind.missing) ∈ L → L.isEmpty = false := by
      intro L hL
      cases L with
      | nil => cases hL
      | cons x xs => rfl
    unfold validateModel
    simp only [hne _ hmem, Bool.false_eq_true, if_false]

/-! ## Claims -/

/-- C1: the capability matcher grants a requested capability string `R` iff
some pattern `P` in the principal's capability list equals `*` or
`admin:*`, or glob-matching `R` against `P` succeeds, or glob-matching `P`
against `R` succeeds (bidirectional check); in particular a principal
holding the single capability `*` is granted every action and every
registered tool, and pattern `tool:math:*` grants requested
`tool:math:add`. -/
theorem C1_capability_matcher_bidirectional (pid : String) (caps : List String)
    (cons : List (String × JValue)) (dis : Bool) (r : String)
    (fn : Handler) (nm ds : Option String) (rc tg : Option (List String)) :
    (principalHas (Principal.mk pid caps cons dis) r = true ↔
      ∃ cap ∈ caps, cap = "*" ∨ cap = "admin:*" ∨
        fnmatch r cap = true ∨ fnmatch cap r = true) ∧
    principalHas (Principal.mk pid ["*"] cons dis) r = true ∧
    enforce_tool (Principal.mk pid ["*"] cons dis) (register fn nm ds rc tg) = .ok () ∧
    principalHas (Principal.mk pid ["tool:math:*"] cons dis) "tool:math:add" = true := by
  refine ⟨?_, principalHas_star pid cons dis r, ?_, rfl⟩
  · simp only [principalHas, List.any_eq_true, Bool.or_eq_true, beq_iff_eq, or_assoc]
  · have hne := register_required_caps_ne_nil fn nm ds rc tg
    rcases h : (register fn nm ds rc tg).required_caps with _ | ⟨a, l⟩
    · exact absurd h hne
    · unfold enforce_tool
      rw [h]
      simp [principalHas_star]

/-- A supplied value that fails type coercion makes the whole model
validation fail, and the error list records the invalid field. -/
theorem validateModel_invalidType (fields : List FieldDef) (args : List (String × Value))
    (f : FieldDef) (v : Value) (hf : f ∈ fields)
    (ha : lookupArg args f.name = some v) (hc : coerce f.ty v = none) :
    ∃ errs, errs ≠ [] ∧ (f.name, FieldErrKind.invalidType) ∈ errs ∧
      validateModel fields args = .error errs := by
  have hvf : validateField args f = .error (f.name, .invalidType) := by
    unfold validateField
    rw [ha]
    show (match coerce f.ty v with
      | some v2 => Except.ok (f.name, v2)
      | none => Except.error (f.name, FieldErrKind.invalidType)) = _
    rw [hc]
  have hmem : (f.name, FieldErrKind.invalidType) ∈ fields.filterMap fun f2 =>
      match validateField args f2 with
      | .error e => some e | .ok _ => none :=
    List.mem_filterMap.mpr ⟨f, hf, by rw [hvf]⟩
  refine ⟨_, ?_, hmem, ?_⟩
  · intro hnil
    rw [hnil] at hmem
    cases hmem
  · have hne : ∀ L : List (String × FieldErrKind),
        (f.name, FieldErrKind.invalidType) ∈ L → L.isEmpty = false := by
      intro L hL
      cases L with
      | nil => cases hL
      | cons x xs => rfl
    unfold validateModel
    simp only [hne _ hmem, Bool.false_eq_true, if_false]

/-- `call` short-circuits to the 422 error as soon as model validation
fails: the handler is not consulted. -/
theorem callTool_of_validate_error (t : ToolDef) (args : List (String × Value))
    (p : Principal) (errs : List (String × FieldErrKind))
    (h : validateModel t.input_model args = .error errs) :
    callTool t args p = .error (.validation errs) := by
  unfold callTool
  rw [h]

/-- Swap the handler of a tool definition, keeping everything else. -/
def withHandler (t : ToolDef) (g : Handler) : ToolDef :=
  ToolDef.mk t.name t.description g t.input_model t.required_caps t.tags

/-! Concrete fixtures used in counterexamples and witnesses. -/

/-- A principal with no capabilities. -/
def pu : Principal := Principal.mk "u" [] [] false

/-- A handler with one required `int` parameter `x`. -/
def hReq : Handler :=
  Handler.mk [Param.mk "x" PyType.intT none] none "f" fun _ => Value.vInt 0

/-- The tool registered from `hReq` with no overrides. -/
def tReq : ToolDef := register hReq none none none none

/-- A handler whose signature declares the reserved parameter `principal`. -/
def hWithPrincipal : Handler :=
  Handler.mk [Param.mk "principal" PyType.anyT none, Param.mk "x" PyType.intT none]
    none "h" fun _ => Value.vInt 0

/-- A safe-tagged tool: `required_capabilities=["tool:x"]`, `tags=["safe"]`. -/
def tSafe : ToolDef :=
  register (Handler.mk [] none "x" fun _ => Value.vStr "") none none
    (some ["tool:x"]) (some ["safe"])

/-- C2 counterexample: the synthesized input contract for a handler that
declares the reserved parameter `principal` still contains a field named
`principal`: at registration time only the legacy alias `user` is
excluded, so `principal` is not excluded from the contract as the claim
states. -/
theorem C2_counterexample :
    (register hWithPrincipal none none none none).input_model.map FieldDef.name
      = ["principal", "x"] := rfl

/-- C2 (amended): at registration only the legacy alias `user` is excluded
from the synthesized input contract (a parameter named `principal` stays in
the contract); at call time, if the handler's signature declares
`principal`, the registry injects the Principal instance under that name
(overwriting any caller-supplied value), else if it declares `user`, it
injects under `user`. -/
theorem C2_reserved_parameters (fn : Handler) (nm ds : Option String)
    (rc tg : Option (List String)) (kw : List (String × Value)) (p : Principal) :
    ((register fn nm ds rc tg).input_model.map FieldDef.name =
      (fn.params.filter fun q => q.name ≠ "user").map Param.name) ∧
    ((fn.params.any fun q => q.name == "principal") = true →
      lookupArg (injectPrincipal fn.params kw p) "principal"
        = some (.vPrincipal p)) ∧
    ((fn.params.any fun q => q.name == "principal") = false →
      (fn.params.any fun q => q.name == "user") = true →
      lookupArg (injectPrincipal fn.params kw p) "user" = some (.vPrincipal p)) := by
  refine ⟨?_, ?_, ?_⟩
  · show ((fn.params.filter fun q => q.name ≠ "user").map
      fun q => FieldDef.mk q.name q.ann q.default).map FieldDef.name = _
    rw [List.map_map]
    rfl
  · intro h1
    unfold injectPrincipal
    rw [if_pos h1]
    exact lookupArg_setKey kw "principal" (.vPrincipal p)
  · intro h1 h2
    unfold injectPrincipal
    rw [if_neg (by rw [h1]; exact Bool.false_ne_true), if_pos h2]
    exact lookupArg_setKey kw "user" (.vPrincipal p)

/-- C2 witness: a handler declaring `principal` receives the injected
Principal under that name at call time. -/
theorem C2_witness :
    lookupArg (injectPrincipal hWithPrincipal.params [("x", Value.vInt 1)] pu)
      "principal" = some (Value.vPrincipal pu) :=
  (C2_reserved_parameters hWithPrincipal none none none none
    [("x", Value.vInt 1)] pu).2.1 rfl

/-- C3: enforce_tool succeeds iff the principal's capabilities satisfy at
least one pattern in the tool's required-capability list OR at least one
of the tool's tags expanded to `tag:<tag>` is satisfied — an OR across
the two gates; otherwise it fails with Forbidden; in particular a tool
with tags=["safe"] and required_capabilities=["tool:x"] is authorized for
a principal holding only `tag:safe`. -/
theorem C3_enforce_tool_or_of_gates (p : Principal) (t : ToolDef) :
    (enforce_tool p t = .ok () ↔
      (∃ r ∈ t.required_caps, principalHas p r = true) ∨
      (∃ g ∈ t.tags, principalHas p ("tag:" ++ g) = true)) ∧
    (enforce_tool p t ≠ .ok () → enforce_tool p t = .error .notAuthorized) ∧
    enforce_tool (Principal.mk "u" ["tag:safe"] [] false) tSafe = .ok () := by
  refine ⟨⟨?_, ?_⟩, ?_, rfl⟩
  · intro hok
    unfold enforce_tool at hok
    by_cases h1 : (t.required_caps.any fun req => principalHas p req) = true
    · exact Or.inl (List.any_eq_true.mp h1)
    · rw [if_neg h1] at hok
      by_cases h2 : (t.tags.any fun tag => principalHas p ("tag:" ++ tag)) = true
      · exact Or.inr (List.any_eq_true.mp h2)
      · rw [if_neg h2] at hok
        exact Except.noConfusion hok
  · intro hor
    unfold enforce_tool
    rcases hor with h | h
    · rw [if_pos (List.any_eq_true.mpr h)]
    · by_cases h1 : (t.required_caps.any fun req => principalHas p req) = true
      · rw [if_pos h1]
      · rw [if_neg h1, if_pos (List.any_eq_true.mpr h)]
  · intro hne
    unfold enforce_tool at hne ⊢
    by_cases h1 : (t.required_caps.any fun req => principalHas p req) = true
    · rw [if_pos h1] at hne
      exact absurd rfl hne
    · rw [if_neg h1] at hne ⊢
      by_cases h2 : (t.tags.any fun tag => principalHas p ("tag:" ++ tag)) = true
      · rw [if_pos h2] at hne
        exact absurd rfl hne
      · rw [if_neg h2]

/-- C3 witness: a principal with no capabilities is rejected with the 403
error by enforce_tool. -/
theorem C3_witness :
    enforce_tool pu tSafe = .error .notAuthorized :=
  (C3_enforce_tool_or_of_gates pu tSafe).2.1 fun h => Except.noConfusion h

/-- C4 counterexample: by default an argument mapping containing the
undeclared field `y` is not rejected with a ValidationError: validation
succeeds (pydantic ignores extra fields by default) and the call invokes
the handler. -/
theorem C4_counterexample :
    callTool tReq [("x", Value.vInt 1), ("y", Value.vInt 2)] pu
      = .ok [("value", Value.vInt 0)] := rfl

/-- C4 (amended): `call` validates the arguments against the tool's input
contract before invoking the handler; by default an argument mapping
containing a field not declared in the input contract has that field
ignored (pydantic's default `extra='ignore'`), not rejected; a mapping
missing a required field fails with ValidationError carrying a
field-level error list; a type-mismatched value fails the same way. -/
theorem C4_validation_policy (t : ToolDef) (args : List (String × Value))
    (p : Principal) :
    (∀ n v, n ∉ t.input_model.map FieldDef.name →
      callTool t ((n, v) :: args) p = callTool t args p) ∧
    (∀ f ∈ t.input_model, f.default = none → lookupArg args f.name = none →
      ∃ errs, errs ≠ [] ∧ (f.name, FieldErrKind.missing) ∈ errs ∧
        callTool t args p = .error (.validation errs)) ∧
    (∀ f ∈ t.input_model, ∀ v, lookupArg args f.name = some v →
      coerce f.ty v = none →
      ∃ errs, errs ≠ [] ∧ (f.name, FieldErrKind.invalidType) ∈ errs ∧
        callTool t args p = .error (.validation errs)) := by
  refine ⟨?_, ?_, ?_⟩
  · intro n v hn
    unfold callTool
    rw [validateModel_extra t.input_model n v args hn]
  · intro f hf hd ha
    obtain ⟨errs, hne, hm, hv⟩ := validateModel_missing t.input_model args f hf hd ha
    exact ⟨errs, hne, hm, callTool_of_validate_error t args p errs hv⟩
  · intro f hf v ha hc
    obtain ⟨errs, hne, hm, hv⟩ := validateModel_invalidType t.input_model args f v hf ha hc
    exact ⟨errs, hne, hm, callTool_of_validate_error t args p errs hv⟩

/-- C4 witness: the extra field `y` is ignored; a missing required `x`
and a non-numeric string for the `int` field `x` each yield a field-level
validation error. -/
theorem C4_witness :
    callTool tReq [("y", Value.vInt 2), ("x", Value.vInt 1)] pu
        = callTool tReq [("x", Value.vInt 1)] pu ∧
    (∃ errs, errs ≠ [] ∧ ("x", FieldErrKind.missing) ∈ errs ∧
      callTool tReq [] pu = .error (.validation errs)) ∧
    (∃ errs, errs ≠ [] ∧ ("x", FieldErrKind.invalidType) ∈ errs ∧
      callTool tReq [("x", Value.vStr "abc")] pu = .error (.validation errs)) :=
  ⟨(C4_validation_policy tReq [("x", Value.vInt 1)] pu).1 "y" (Value.vInt 2)
      (by decide),
   (C4_validation_policy tReq [] pu).2.1 (FieldDef.mk "x" PyType.intT none)
      (List.mem_cons_self _ _) rfl rfl,
   (C4_validation_policy tReq [("x", Value.vStr "abc")] pu).2.2
      (FieldDef.mk "x" PyType.intT none) (List.mem_cons_self _ _)
      (Value.vStr "abc") rfl rfl⟩

/-- C8: for every registered tool whose input contract has a required
field missing from the supplied argument mapping, `call` fails with
ValidationError and the underlying handler is never invoked: the result
is the same validation error for every possible handler body, so no
handler side effects can occur. -/
theorem C8_missing_required_never_invokes_handler (t : ToolDef)
    (args : List (String × Value)) (p : Principal) (f : FieldDef)
    (hf : f ∈ t.input_model) (hd : f.default = none)
    (ha : lookupArg args f.name = none) :
    ∃ errs, (f.name, FieldErrKind.missing) ∈ errs ∧
      callTool t args p = .error (.validation errs) ∧
      ∀ g : Handler, callTool (withHandler t g) args p = .error (.validation errs) := by
  obtain ⟨errs, hne, hm, hv⟩ := validateModel_missing t.input_model args f hf hd ha
  refine ⟨errs, hm, callTool_of_validate_error t args p errs hv, fun g => ?_⟩
  exact callTool_of_validate_error (withHandler t g) args p errs hv

/-- C8 witness: calling the one-required-field tool with no arguments
fails with the missing-field validation error whatever the handler is. -/
theorem C8_witness :
    ∃ errs, ("x", FieldErrKind.missing) ∈ errs ∧
      callTool tReq [] pu = .error (.validation errs) ∧
      ∀ g : Handler, callTool (withHandler tReq g) [] pu
        = .error (.validation errs) :=
  C8_missing_required_never_invokes_handler tReq [] pu
    (FieldDef.mk "x" PyType.intT none) (List.mem_cons_self _ _) rfl rfl

/-! ## Credential-store lemmas -/

/-- Scanning past a block of records none of which carries the sought
digest leaves the outcome of the rest, re-prepending the block to the
returned store on success. -/
theorem resolveScan_skip (d : String) (now : Nat) (pre rest : List StoredKey)
    (hpre : ∀ j ∈ pre, j.token_hmac ≠ d) :
    resolveScan d now (pre ++ rest) =
      match resolveScan d now rest with
      | .error e => .error e
      | .ok pr => .ok (pr.1, pre ++ pr.2) := by
  induction pre with
  | nil =>
    rw [List.nil_append]
    rcases h : resolveScan d now rest with e | pr
    · rfl
    · simp
  | cons k r ih =>
    have hk : k.token_hmac ≠ d := hpre k (List.mem_cons_self k r)
    have ih2 := ih fun j hj => hpre j (List.mem_cons_of_mem k hj)
    rw [List.cons_append]
    simp only [resolveScan]
    rw [if_neg hk, ih2]
    rcases h : resolveScan d now rest with e | pr
    · rfl
    · simp

/-- A revoked matching record fails the checks with the revoked error. -/
theorem checkKey_revoked (k : StoredKey) (now : Nat) (rest : List StoredKey)
    (h : k.revoked_at.isSome = true) :
    checkKey k now rest = .error .revokedKey := by
  unfold checkKey
  rw [if_pos h]

/-- An unrevoked matching record with expiry strictly in the past fails
the checks with the expired error. -/
theorem checkKey_expired (k : StoredKey) (now : Nat) (rest : List StoredKey)
    (h1 : k.revoked_at = none) (e : Nat) (h2 : k.expires_at = some e)
    (h3 : e < now) :
    checkKey k now rest = .error .expiredKey := by
  unfold checkKey
  rw [h1]
  rw [if_neg (by simp)]
  rw [h2]
  show (if e < now then (Except.error AuthError.expiredKey :
      Except AuthError (Principal × List StoredKey))
    else .ok (principalOfKey k, stampUsed k now :: rest)) = _
  rw [if_pos h3]

/-- An unrevoked, unexpired matching record passes the checks: the
principal is returned and `last_used_at` is stamped. -/
theorem checkKey_ok (k : StoredKey) (now : Nat) (rest : List StoredKey)
    (h1 : k.revoked_at = none)
    (h2 : ∀ e, k.expires_at = some e → ¬ e < now) :
    checkKey k now rest = .ok (principalOfKey k, stampUsed k now :: rest) := by
  unfold checkKey
  rw [h1]
  rw [if_neg (by simp)]
  rcases hx : k.expires_at with _ | e
  · rfl
  · show (if e < now then (Except.error AuthError.expiredKey :
        Except AuthError (Principal × List StoredKey))
      else .ok (principalOfKey k, stampUsed k now :: rest)) = _
    rw [if_neg (h2 e hx)]

/-- When every record carrying the sought digest is revoked and at least
one such record exists, the scan fails with the revoked error. -/
theorem resolveScan_all_revoked (d : String) (now : Nat) (keys : List StoredKey)
    (hall : ∀ k ∈ keys, k.token_hmac = d → k.revoked_at.isSome = true)
    (hex : ∃ k ∈ keys, k.token_hmac = d) :
    resolveScan d now keys = .error .revokedKey := by
  induction keys with
  | nil =>
    obtain ⟨k, hk, _⟩ := hex
    cases hk
  | cons a r ih =>
    simp only [resolveScan]
    by_cases hm : a.token_hmac = d
    · rw [if_pos hm, checkKey_revoked a now r (hall a (List.mem_cons_self a r) hm)]
    · rw [if_neg hm]
      obtain ⟨k, hk, hkd⟩ := hex
      rcases List.mem_cons.mp hk with h1 | h2
      · exact absurd (h1 ▸ hkd) hm
      · rw [ih (fun k2 hk2 hd2 => hall k2 (List.mem_cons_of_mem a hk2) hd2)
          ⟨k, h2, hkd⟩]

/-- After `revoke`, every record in the store carrying the token's digest
is revoked. -/
theorem revoke_matching_all_revoked (D : String → String) (now : Nat)
    (keys : List StoredKey) (token : String) :
    ∀ k ∈ (revoke D now keys token).2, k.token_hmac = D token →
      k.revoked_at.isSome = true := by
  intro k hk hkd
  simp only [revoke] at hk
  obtain ⟨j, hj, hjk⟩ := List.mem_map.mp hk
  by_cases hc : (j.token_hmac == D token && j.revoked_at.isNone) = true
  · rw [if_pos hc] at hjk
    rw [← hjk]
    rfl
  · rw [if_neg hc] at hjk
    subst hjk
    rcases hr : j.revoked_at with _ | t
    · refine absurd ?_ hc
      rw [Bool.and_eq_true, beq_iff_eq, hr]
      exact ⟨hkd, rfl⟩
    · rfl

/-- C5: `resolve` behaviour on a well-formed store: no matching digest →
invalid-credential 401; first matching record revoked → revoked 401;
first matching record expired → expired 401; otherwise the principal is
built from the record's fields with `disabled=false`, the result does not
depend on whether the best-effort `last_used_at` write-back persisted,
and the store content is updated exactly when the write succeeded. -/
theorem C5_resolve_behaviour (D : String → String) (now : Nat) (w : Bool)
    (token : String) (pre post : List StoredKey) (k : StoredKey) :
    ((∀ j ∈ pre, j.token_hmac ≠ D token) →
      resolve D now w pre token = (.error .invalidKey, pre)) ∧
    ((∀ j ∈ pre, j.token_hmac ≠ D token) → k.token_hmac = D token →
      ((k.revoked_at.isSome = true →
        resolve D now w (pre ++ k :: post) token
          = (.error .revokedKey, pre ++ k :: post)) ∧
       (k.revoked_at = none → ∀ e, k.expires_at = some e → e < now →
        resolve D now w (pre ++ k :: post) token
          = (.error .expiredKey, pre ++ k :: post)) ∧
       (k.revoked_at = none → (∀ e, k.expires_at = some e → ¬ e < now) →
        (resolve D now w (pre ++ k :: post) token).1
            = .ok (Principal.mk k.principal_id k.capabilities k.constraints false) ∧
        (resolve D now w (pre ++ k :: post) token).2
            = if w then pre ++ stampUsed k now :: post else pre ++ k :: post))) := by
  constructor
  · intro hpre
    unfold resolve
    have h := resolveScan_skip (D token) now pre [] hpre
    rw [List.append_nil] at h
    rw [h]
    rfl
  · intro hpre hk
    have hskip := resolveScan_skip (D token) now pre (k :: post) hpre
    refine ⟨?_, ?_, ?_⟩
    · intro hrev
      unfold resolve
      rw [hskip]
      simp only [resolveScan]
      rw [if_pos hk, checkKey_revoked k now post hrev]
    · intro hrev e he hlt
      unfold resolve
      rw [hskip]
      simp only [resolveScan]
      rw [if_pos hk, checkKey_expired k now post hrev e he hlt]
    · intro hrev hexp
      unfold resolve
      rw [hskip]
      simp only [resolveScan]
      rw [if_pos hk, checkKey_ok k now post hrev hexp]
      exact ⟨rfl, rfl⟩

/-- C5 witness: resolving a fresh unrevoked, unexpired record returns the
principal built from it and stamps `last_used_at`. -/
theorem C5_witness :
    (resolve (fun s => s) 5 true
      [StoredKey.mk "k1" "t" "alice" ["tool:x"] [] 0 none none none] "t").1
      = .ok (Principal.mk "alice" ["tool:x"] [] false) ∧
    (resolve (fun s => s) 5 true
      [StoredKey.mk "k1" "t" "alice" ["tool:x"] [] 0 none none none] "t").2
      = [StoredKey.mk "k1" "t" "alice" ["tool:x"] [] 0 none none (some 5)] := by
  have h := (C5_resolve_behaviour (fun s => s) 5 true "t" [] []
    (StoredKey.mk "k1" "t" "alice" ["tool:x"] [] 0 none none none)).2
    (fun j hj => absurd hj (List.not_mem_nil j)) rfl
  have h3 := h.2.2 rfl fun e he => Option.noConfusion he
  exact ⟨h3.1, h3.2⟩

/-- C6: round trip — minting a credential and then resolving the raw
token that mint returned (the token's digest being fresh for the store,
and the expiry, if any, not in the past) yields a Principal whose
principal_id and capabilities equal the mint-time arguments. -/
theorem C6_mint_resolve_round_trip (D : String → String) (pid : String)
    (caps : List String) (cons : Option (List (String × JValue)))
    (expiry : Option Nat) (randToken randId : String) (mintNow now : Nat)
    (w : Bool) (keys : List StoredKey)
    (hfresh : ∀ j ∈ keys, j.token_hmac ≠ D ("mcp_live_" ++ randToken))
    (hexp : ∀ e, expiry = some e → ¬ e < now) :
    (resolve D now w
      (mint_key D "mcp_live_" randToken randId mintNow pid caps cons expiry keys).2
      (mint_key D "mcp_live_" randToken randId mintNow pid caps cons expiry keys).1).1
      = .ok (Principal.mk pid caps (cons.getD []) false) := by
  have hstore : (mint_key D "mcp_live_" randToken randId mintNow pid caps cons
      expiry keys).2
      = keys ++ [StoredKey.mk ("k_" ++ randId) (D ("mcp_live_" ++ randToken))
          pid caps (cons.getD []) mintNow expiry none none] := rfl
  have htok : (mint_key D "mcp_live_" randToken randId mintNow pid caps cons
      expiry keys).1 = "mcp_live_" ++ randToken := rfl
  rw [hstore, htok]
  unfold resolve
  rw [resolveScan_skip (D ("mcp_live_" ++ randToken)) now keys
    [StoredKey.mk ("k_" ++ randId) (D ("mcp_live_" ++ randToken))
      pid caps (cons.getD []) mintNow expiry none none] hfresh]
  simp only [resolveScan]
  rw [if_pos trivial, checkKey_ok _ now [] rfl fun e he => hexp e he]
  rfl

/-- C6 witness: mint then resolve on the empty store round-trips the
principal id and capabilities. -/
theorem C6_witness :
    (resolve (fun s => s) 9 true
      (mint_key (fun s => s) "mcp_live_" "r1" "id1" 3 "demo" ["tool:math:*"]
        none none []).2
      (mint_key (fun s => s) "mcp_live_" "r1" "id1" 3 "demo" ["tool:math:*"]
        none none []).1).1
      = .ok (Principal.mk "demo" ["tool:math:*"] [] false) :=
  C6_mint_resolve_round_trip (fun s => s) "demo" ["tool:math:*"] none none
    "r1" "id1" 3 9 true [] (fun j hj => absurd hj (List.not_mem_nil j))
    (fun _ he => Option.noConfusion he)

/-- C7: `revoke` hashes the token, sets `revoked_at` on the matching
unrevoked records (in particular the first), and returns whether a change
was made; it is idempotent — revoking an already-revoked or nonexistent
token returns false, so a second revoke of the same token returns false —
and after a revoke a subsequent resolve of that token fails with a 401. -/
theorem C7_revoke_semantics (D : String → String) (now now2 : Nat) (w : Bool)
    (keys : List StoredKey) (token : String) :
    ((revoke D now keys token).1 = true ↔
      ∃ k ∈ keys, k.token_hmac = D token ∧ k.revoked_at = none) ∧
    (∀ k ∈ (revoke D now keys token).2, k.token_hmac = D token →
      k.revoked_at.isSome = true) ∧
    ((revoke D now2 (revoke D now keys token).2 token).1 = false) ∧
    ((∃ k ∈ keys, k.token_hmac = D token) →
      (resolve D now2 w (revoke D now keys token).2 token).1
        = .error .revokedKey) := by
  refine ⟨?_, revoke_matching_all_revoked D now keys token, ?_, ?_⟩
  · show (keys.any fun k => k.token_hmac == D token && k.revoked_at.isNone)
        = true ↔ _
    simp only [List.any_eq_true, Bool.and_eq_true, beq_iff_eq,
      Option.isNone_iff_eq_none]
  · show ((revoke D now keys token).2.any
        fun k => k.token_hmac == D token && k.revoked_at.isNone) = false
    rw [List.any_eq_false]
    intro k hk
    by_cases hm : k.token_hmac = D token
    · have hrev := revoke_matching_all_revoked D now keys token k hk hm
      rcases hr : k.revoked_at with _ | t
      · rw [hr] at hrev
        simp at hrev
      · simp [hm, hr]
    · simp [hm]
  · rintro ⟨j, hj, hjd⟩
    unfold resolve
    have hm : (if j.token_hmac == D token && j.revoked_at.isNone
        then setRevoked j now else j) ∈ (revoke D now keys token).2 := by
      simp only [revoke]
      exact List.mem_map.mpr ⟨j, hj, rfl⟩
    have hd2 : (if j.token_hmac == D token && j.revoked_at.isNone
        then setRevoked j now else j).token_hmac = D token := by
      by_cases hcnd : (j.token_hmac == D token && j.revoked_at.isNone) = true
      · rw [if_pos hcnd]
        exact hjd
      · rw [if_neg hcnd]
        exact hjd
    rw [resolveScan_all_revoked (D token) now2 (revoke D now keys token).2
      (revoke_matching_all_revoked D now keys token) ⟨_, hm, hd2⟩]

/-- C7 witness: revoking a stored token reports a change, a second revoke
reports none, and resolving the revoked token fails with the 401. -/
theorem C7_witness :
    (revoke (fun s => s) 4
      [StoredKey.mk "k1" "t" "alice" ["tool:x"] [] 0 none none none] "t").1
      = true ∧
    (revoke (fun s => s) 7
      (revoke (fun s => s) 4
        [StoredKey.mk "k1" "t" "alice" ["tool:x"] [] 0 none none none] "t").2
      "t").1 = false ∧
    (resolve (fun s => s) 7 true
      (revoke (fun s => s) 4
        [StoredKey.mk "k1" "t" "alice" ["tool:x"] [] 0 none none none] "t").2
      "t").1 = .error .revokedKey := by
  have h := C7_revoke_semantics (fun s => s) 4 7 true
    [StoredKey.mk "k1" "t" "alice" ["tool:x"] [] 0 none none none] "t"
  exact ⟨h.1.mpr ⟨StoredKey.mk "k1" "t" "alice" ["tool:x"] [] 0 none none none,
      List.mem_cons_self _ _, rfl, rfl⟩,
    h.2.2.1,
    h.2.2.2 ⟨StoredKey.mk "k1" "t" "alice" ["tool:x"] [] 0 none none none,
      List.mem_cons_self _ _, rfl⟩⟩

/-- C9: in delegated-trust (external) mode the resolver fails with a 401
when the stripped principal-identity header is absent or empty, fails
with a 401 when the constraints header is present but not parseable
JSON, and otherwise returns a Principal built from the headers (a parsed
non-object constraints value is replaced by the empty mapping inside
`constraintsOf`). -/
theorem C9_external_mode (parse : String → Option JValue)
    (hp hc hx : Option String) :
    (pyStrip (hp.getD "") = "" →
      principalExternal parse hp hc hx = .error .missingPrincipalHeader) ∧
    (pyStrip (hp.getD "") ≠ "" → pyStrip (hx.getD "") ≠ "" →
      parse (pyStrip (hx.getD "")) = none →
      principalExternal parse hp hc hx = .error .invalidConstraintsHeader) ∧
    (pyStrip (hp.getD "") ≠ "" → pyStrip (hx.getD "") = "" →
      principalExternal parse hp hc hx
        = .ok (Principal.mk (pyStrip (hp.getD ""))
            (splitCaps (pyStrip (hc.getD ""))) [] false)) ∧
    (∀ v, pyStrip (hp.getD "") ≠ "" → pyStrip (hx.getD "") ≠ "" →
      parse (pyStrip (hx.getD "")) = some v →
      principalExternal parse hp hc hx
        = .ok (Principal.mk (pyStrip (hp.getD ""))
            (splitCaps (pyStrip (hc.getD ""))) (constraintsOf v) false)) := by
  refine ⟨?_, ?_, ?_, ?_⟩
  · intro h
    simp only [principalExternal]
    rw [if_pos h]
  · intro h1 h2 h3
    simp only [principalExternal]
    rw [if_neg h1, if_neg h2, h3]
  · intro h1 h2
    simp only [principalExternal]
    rw [if_neg h1, if_pos h2]
  · intro v h1 h2 h3
    simp only [principalExternal]
    rw [if_neg h1, if_neg h2, h3]

/-- C9 witness: missing identity header 401, unparseable constraints 401,
and the two success shapes. -/
theorem C9_witness :
    principalExternal (fun s => if s = "x" then some (JValue.obj []) else none)
      none (some "a,b") (some "x") = .error .missingPrincipalHeader ∧
    principalExternal (fun s => if s = "x" then some (JValue.obj []) else none)
      (some " alice ") (some "a,b") (some "zz")
      = .error .invalidConstraintsHeader ∧
    principalExternal (fun s => if s = "x" then some (JValue.obj []) else none)
      (some "alice") (some "a,b") none
      = .ok (Principal.mk "alice" ["a", "b"] [] false) ∧
    principalExternal (fun s => if s = "x" then some (JValue.obj []) else none)
      (some "alice") (some "") (some "x")
      = .ok (Principal.mk "alice" [] [] false) := by
  refine ⟨(C9_external_mode _ none (some "a,b") (some "x")).1 (by decide),
    (C9_external_mode _ (some " alice ") (some "a,b") (some "zz")).2.1
      (by decide) (by decide) rfl, ?_, ?_⟩
  · have h := (C9_external_mode
      (fun s => if s = "x" then some (JValue.obj []) else none)
      (some "alice") (some "a,b") none).2.2.1 (by decide) rfl
    exact h
  · have h := (C9_external_mode
      (fun s => if s = "x" then some (JValue.obj []) else none)
      (some "alice") (some "") (some "x")).2.2.2 (JValue.obj [])
      (by decide) (by decide) rfl
    exact h

/-- C10: every raw token minted with the default prefix begins with the
fixed literal "mcp_live_" followed by the random URL-safe component, and
the single record appended to the store holds the keyed digest of the
full token (prefix included) — never the raw token — with the mint-time
principal id and capabilities. -/
theorem C10_token_format (D : String → String) (randToken randId : String)
    (now : Nat) (pid : String) (caps : List String)
    (cons : Option (List (String × JValue))) (expiry : Option Nat)
    (keys : List StoredKey) :
    (mint_key D "mcp_live_" randToken randId now pid caps cons expiry keys).1
        = "mcp_live_" ++ randToken ∧
    (∃ rest, (mint_key D "mcp_live_" randToken randId now pid caps cons
        expiry keys).1 = "mcp_live_" ++ rest) ∧
    (∃ nk, (mint_key D "mcp_live_" randToken randId now pid caps cons
        expiry keys).2 = keys ++ [nk] ∧
      nk.token_hmac = D ((mint_key D "mcp_live_" randToken randId now pid caps
        cons expiry keys).1) ∧
      nk.principal_id = pid ∧ nk.capabilities = caps) :=
  ⟨rfl, ⟨randToken, rfl⟩,
    ⟨StoredKey.mk ("k_" ++ randId) (D ("mcp_live_" ++ randToken)) pid caps
      (cons.getD []) now expiry none none, rfl, rfl, rfl, rfl⟩⟩

end DynMCP
